import Mathlib

/-!
Shallow embedding of the data pipeline of `src/app.py` (a Streamlit dashboard
over a best-selling-games CSV), and proofs about its filter pipeline and
per-chart transforms.

Modelling conventions:
* A dataframe is a `List` of records; a record is a structure with one field
  per consumed CSV column.
* Numeric columns that `pd.to_numeric(..., errors="coerce")` turns into
  nullable floats are `Option ℚ`; a cell that failed to parse (or was missing)
  is `none`, exactly as coercion yields `NaN`.  `estimated_downloads` is
  `Option ℤ` (the column holds download counts; sums and comparisons of
  integers are exact).  NaN fails every `<`/`>=`/`==` comparison, which the
  embedding renders by matching on `none`.
* `release_date` is consumed only through `.dt.year`, so a parsed date is
  embedded as its year.
* Python string operations used by the script (`replace(" ", "")`,
  `split(",")`, `strip()`, substring search, lexicographic comparison) are
  defined below by structural recursion on the character list of a `String`.
-/

namespace SteamApp

/-- Python `s.replace(" ", "")`: drop every space character (exactly the
space character, as in the script). -/
def removeSpaces (s : String) : String :=
  ⟨s.data.filter (fun c => !(c == ' '))⟩

/-- Helper for `splitCommas`, on character lists.  Always returns a
non-empty list of fragments, like Python `str.split`. -/
def splitCommasCh : List Char → List (List Char)
  | [] => [[]]
  | c :: cs =>
    match splitCommasCh cs with
    | [] => [[]]
    | t :: ts => if c = ',' then [] :: t :: ts else (c :: t) :: ts

/-- Python `s.split(",")`. -/
def splitCommas (s : String) : List String :=
  (splitCommasCh s.data).map (fun l => ⟨l⟩)

/-- Python `s.strip()`: remove leading and trailing whitespace. -/
def pyStrip (s : String) : String :=
  ⟨((s.data.dropWhile Char.isWhitespace).reverse.dropWhile Char.isWhitespace).reverse⟩

/-- Is `pre` a prefix of `l`? -/
def isPrefixCh : List Char → List Char → Bool
  | [], _ => true
  | _ :: _, [] => false
  | a :: as, b :: bs => a == b && isPrefixCh as bs

/-- Does `needle` occur as a contiguous substring of `hay`? -/
def containsCh (hay needle : List Char) : Bool :=
  match hay with
  | [] => isPrefixCh needle []
  | _ :: t => isPrefixCh needle hay || containsCh t needle

/-- Python `needle in hay` on strings (substring search). -/
def strContains (hay needle : String) : Bool :=
  containsCh hay.data needle.data

/-- Lexicographic `≤` on character lists (Python string comparison by
code point). -/
def lexLeCh : List Char → List Char → Bool
  | [], _ => true
  | _ :: _, [] => false
  | a :: as, b :: bs => if a = b then lexLeCh as bs else decide (a < b)

/-- Python `a <= b` on strings. -/
def strLe (a b : String) : Bool := lexLeCh a.data b.data

/-- A parsed `release_date`.  Only `.dt.year` is ever consumed
(line 20 of `src/app.py`), so the embedding records just the year. -/
structure SDate where
  year : Int
deriving DecidableEq

/-- One row of `data/bestSelling_games.csv` after the per-column numeric/date
coercions of `load_data` (lines 13-17): a cell that was missing or failed
`pd.to_numeric`/`pd.to_datetime` with `errors="coerce"` is `none`. -/
structure RawGame where
  game_name : String
  developer : String
  price : Option ℚ
  reviews_like_rate : Option ℚ
  rating : Option ℚ
  estimated_downloads : Option Int
  length : Option ℚ
  difficulty : Option ℚ
  age_restriction : Option ℚ
  release_date : Option SDate
  user_defined_tags : Option String
  supported_os : Option String
deriving DecidableEq

/-- A record of the cleaned dataset returned by `load_data`:
`user_defined_tags` has been `fillna("")`-ed, and the derived columns
`release_year` and `is_free` exist. -/
structure Game where
  game_name : String
  developer : String
  price : Option ℚ
  reviews_like_rate : Option ℚ
  rating : Option ℚ
  estimated_downloads : Option Int
  length : Option ℚ
  difficulty : Option ℚ
  age_restriction : Option ℚ
  release_date : Option SDate
  user_defined_tags : String
  supported_os : Option String
  release_year : Option Int
  is_free : Int
deriving DecidableEq

/-- The deduplication key of line 19: `subset=["game_name","developer"]`. -/
def rawKey (r : RawGame) : String × String := (r.game_name, r.developer)

/-- The same key on cleaned records. -/
def gameKey (r : Game) : String × String := (r.game_name, r.developer)

/-- `DataFrame.drop_duplicates(subset, keep="first")`: scan in source order,
keep a row iff its key has not been seen before. -/
def dropDupAux (seen : List (String × String)) : List RawGame → List RawGame
  | [] => []
  | r :: rs =>
    if rawKey r ∈ seen then dropDupAux seen rs
    else r :: dropDupAux (rawKey r :: seen) rs

/-- Line 19: `data.drop_duplicates(subset=["game_name","developer"])`. -/
def dropDuplicatesKey (l : List RawGame) : List RawGame := dropDupAux [] l

/-- Line 18: `data["user_defined_tags"].fillna("")`. -/
def fillTags (r : RawGame) : RawGame :=
  { r with user_defined_tags := some (r.user_defined_tags.getD "") }

/-- Lines 20-22: derive `release_year` from the parsed date
(null-propagating) and `is_free = (price.fillna(0) == 0).astype(int)`. -/
def deriveCols (r : RawGame) : Game :=
  { game_name := r.game_name
    developer := r.developer
    price := r.price
    reviews_like_rate := r.reviews_like_rate
    rating := r.rating
    estimated_downloads := r.estimated_downloads
    length := r.length
    difficulty := r.difficulty
    age_restriction := r.age_restriction
    release_date := r.release_date
    user_defined_tags := r.user_defined_tags.getD ""
    supported_os := r.supported_os
    release_year := r.release_date.map SDate.year
    is_free := if r.price.getD 0 = 0 then 1 else 0 }

/-- `load_data` (lines 11-24) on the already-coerced rows: fill the tag
column, deduplicate on `(game_name, developer)` keeping the first
occurrence, then derive `release_year` and `is_free`. -/
def load_data (rows : List RawGame) : List Game :=
  (dropDuplicatesKey (rows.map fillTags)).map deriveCols

/-- The sidebar filter parameters (lines 31-38). -/
structure Params where
  selected_developers : List String
  selected_os : List String
  min_downloads : Int
  year_range : Int × Int
  free_only : Bool

/-- Line 42: `filtered["developer"].isin(selected_developers)`. -/
def devPred (sel : List String) (r : Game) : Bool :=
  sel.contains r.developer

/-- Lines 44-45: `pattern = "|".join(selected_os)` and
`supported_os.fillna("").str.replace(" ", "").str.contains(pattern)`.
`str.contains` reads the pattern as a regular expression; an alternation of
the metacharacter-free OS tokens of this dataset matches iff some selected
token occurs as a substring of the space-stripped value, which is what is
embedded here. -/
def osPred (sel : List String) (r : Game) : Bool :=
  sel.any (fun t => strContains (removeSpaces (r.supported_os.getD "")) t)

/-- Line 46: `filtered["estimated_downloads"] >= min_downloads`; a NaN
download count fails the comparison. -/
def downloadsPred (m : Int) (r : Game) : Bool :=
  match r.estimated_downloads with
  | some d => decide (m ≤ d)
  | none => false

/-- Line 47: `(release_year >= lo) & (release_year <= hi)`; a NaN year
fails both comparisons. -/
def yearPred (lo hi : Int) (r : Game) : Bool :=
  match r.release_year with
  | some y => decide (lo ≤ y) && decide (y ≤ hi)
  | none => false

/-- Line 49: `filtered["price"] == 0`; a NaN price is not equal to 0. -/
def freePred (r : Game) : Bool :=
  r.price == some 0

/-- Lines 40-49: the sidebar filter pipeline, exactly in source order; the
developer, OS and free-only stages run only when their parameter is
non-empty/set. -/
def apply_filters (p : Params) (data : List Game) : List Game :=
  let f := data
  let f := if p.selected_developers.isEmpty then f
           else f.filter (devPred p.selected_developers)
  let f := if p.selected_os.isEmpty then f
           else f.filter (osPred p.selected_os)
  let f := f.filter (downloadsPred p.min_downloads)
  let f := f.filter (yearPred p.year_range.1 p.year_range.2)
  if p.free_only then f.filter freePred else f

/-- The non-null release years of the dataset, in row order. -/
def yearValues (data : List Game) : List Int :=
  data.filterMap Game.release_year

/-- The all-defaults parameter set of lines 31-38: both multiselects empty,
`min_downloads = 0`, the year slider spanning
`int(data["release_year"].min()) .. int(data["release_year"].max())`
(pandas `min`/`max` skip NaN), and the checkbox off. -/
def defaultParams (data : List Game) : Params :=
  { selected_developers := []
    selected_os := []
    min_downloads := 0
    year_range := ((yearValues data).min?.getD 0, (yearValues data).max?.getD 0)
    free_only := false }

/-- Descending-downloads comparator used by
`sort_values("estimated_downloads", ascending=False)`; pandas puts NaN rows
last (`na_position="last"`), so `none` sorts below every number. -/
def cmpDownloads (a b : Game) : Bool :=
  match a.estimated_downloads, b.estimated_downloads with
  | some u, some v => decide (v ≤ u)
  | some _, none => true
  | none, some _ => false
  | none, none => true

/-- Line 97: `filtered.sort_values("estimated_downloads", ascending=False).head(10)`.
pandas sorts with an unstable quicksort; `mergeSort` realises one valid
descending order, and the theorems below do not depend on how ties among
equal download counts are broken. -/
def sbTop (l : List Game) : List Game :=
  (l.mergeSort cmpDownloads).take 10

/-- One exploded row of the sunburst frame: a source record together with
one of its (stripped, non-empty) tags. -/
structure SBRow where
  game : Game
  tag : String
deriving DecidableEq

/-- Lines 98-101 applied to one record: split `user_defined_tags` on commas,
strip each fragment, and drop the empty ones.  (`astype(str)` is the
identity here: the loader already replaced null tags by `""`.) -/
def nonemptyTags (r : Game) : List String :=
  ((splitCommas r.user_defined_tags).map pyStrip).filter (fun t => !(t == ""))

/-- Lines 98-101: explode the top-10 frame into one row per non-empty tag. -/
def sbRows (l : List Game) : List SBRow :=
  (sbTop l).flatMap (fun r => (nonemptyTags r).map (fun t => ⟨r, t⟩))

/-- `sb.groupby("game_name")["tags_list"].transform("count")` for one row:
the number of exploded rows whose record has the given `game_name` (the
groupby key is the name alone, not the (name, developer) pair). -/
def sbNameCount (rows : List SBRow) (n : String) : Nat :=
  rows.countP (fun x => x.game.game_name == n)

/-- Line 102: `downloads_weight = estimated_downloads / count.replace(0, 1)`.
A NaN download count gives a NaN weight (`none`); the `replace(0, 1)` branch
is unreachable for an existing row (its own group has at least one row) but
is kept for fidelity. -/
def sbWeight (rows : List SBRow) (x : SBRow) : Option ℚ :=
  let k := sbNameCount rows x.game.game_name
  let k := if k = 0 then 1 else k
  x.game.estimated_downloads.map (fun d => (d : ℚ) / (k : ℚ))

/-- The weights of the exploded rows belonging to record `r` (rows compare
their whole record, so two distinct same-named records keep separate rows). -/
def rowWeights (l : List Game) (r : Game) : List (Option ℚ) :=
  ((sbRows l).filter (fun x => x.game == r)).map (sbWeight (sbRows l))

/-- One row of the heatmap frame of line 108: the five numeric columns, all
non-null. -/
structure HRow where
  downloads : ℚ
  rating : ℚ
  price : ℚ
  hlength : ℚ
  reviews_like_rate : ℚ
deriving DecidableEq

/-- Line 108: `filtered[[...five columns...]].dropna()`. -/
def heatmap_data (l : List Game) : List HRow :=
  l.filterMap (fun r =>
    match r.estimated_downloads, r.rating, r.price, r.length, r.reviews_like_rate with
    | some a, some b, some c, some d, some e =>
        some ⟨(a : ℚ), b, c, d, e⟩
    | _, _, _, _, _ => none)

/-- Column projection of the heatmap frame (columns 0-4 in the order of
line 108). -/
def hcol : Nat → HRow → ℚ
  | 0, r => r.downloads
  | 1, r => r.rating
  | 2, r => r.price
  | 3, r => r.hlength
  | _, r => r.reviews_like_rate

/-- The `i`-th column of the heatmap frame as a list. -/
def colList (l : List HRow) (i : Nat) : List ℚ := l.map (hcol i)

/-- Arithmetic mean (0 on the empty list, matching the 0/0 = NaN case never
reaching the correlation below, where a zero deviation sum already yields
NaN). -/
def qmean (l : List ℚ) : ℚ := l.sum / (l.length : ℚ)

/-- Sum of squared deviations from the mean, `Σ (x - x̄)²`. -/
def devSq (l : List ℚ) : ℚ :=
  (l.map (fun x => (x - qmean l) ^ 2)).sum

/-- Sum of products of deviations, `Σ (x - x̄)(y - ȳ)`. -/
def devProd (xs ys : List ℚ) : ℚ :=
  ((xs.zip ys).map (fun p => (p.1 - qmean xs) * (p.2 - qmean ys))).sum

/-- One entry of `DataFrame.corr()` (Pearson): pandas computes
`covxy / (sqrt(ssqdmx) * sqrt(ssqdmy))` and writes NaN when the divisor is
zero, i.e. when either column has zero squared-deviation sum (constant
column, or fewer than two rows).  The float value is modelled in `ℝ`;
NaN is `none`. -/
noncomputable def corrVal (xs ys : List ℚ) : Option ℝ :=
  if devSq xs = 0 ∨ devSq ys = 0 then none
  else some ((devProd xs ys : ℝ) / (Real.sqrt (devSq xs) * Real.sqrt (devSq ys)))

/-- Line 109: the pairwise Pearson correlation matrix of the heatmap frame. -/
noncomputable def corrMatrix (l : List HRow) (i j : Nat) : Option ℝ :=
  corrVal (colList l i) (colList l j)

/-- Line 123-124: first comma-separated fragment of `user_defined_tags`,
stripped; the empty string becomes `"Unknown"`. -/
def primary_tag (r : Game) : String :=
  let t := pyStrip ((splitCommas r.user_defined_tags).headD "")
  if t = "" then "Unknown" else t

/-- numpy float→int casting truncates toward zero. -/
def truncQ (q : ℚ) : Int := q.num.tdiv q.den

/-- Line 125: `pd.to_numeric(age_restriction, errors="coerce").fillna(0).astype(int)`.
The record field already holds the coercion result, so a null or unparsable
cell is `none` and becomes 0. -/
def age_val (r : Game) : Int := truncQ (r.age_restriction.getD 0)

/-- Lines 126-127: map {0, 13, 17} to their labels and fall back to the
decimal rendering of the integer code. -/
def age_label (r : Game) : String :=
  if age_val r = 0 then "All Ages"
  else if age_val r = 13 then "Teen 13+"
  else if age_val r = 17 then "Mature 17+"
  else toString (age_val r)

/-- First-occurrence deduplication of a string list (the distinct group
keys of a `groupby`; pandas orders the keys ascending, which only affects
how the later unstable descending sort breaks ties among equal totals, and
no theorem below depends on that tie-break). -/
def dedupStr : List String → List String
  | [] => []
  | a :: as => a :: (dedupStr (as.filter (fun b => !(b == a))))
termination_by l => l.length
decreasing_by
  simpa using Nat.lt_succ_of_le (List.length_filter_le _ _)

/-- The distinct `primary_tag` keys of the frame. -/
def distinctTags (l : List Game) : List String :=
  dedupStr (l.map primary_tag)

/-- `groupby("primary_tag")["estimated_downloads"].sum()` for one key:
pandas sums skipping NaN (an all-NaN group sums to 0). -/
def tagTotal (l : List Game) (t : String) : Int :=
  ((l.filter (fun r => primary_tag r == t)).map
    (fun r => r.estimated_downloads.getD 0)).sum

/-- Descending comparator on (tag, total) pairs for
`sort_values("estimated_downloads", ascending=False)` of line 128. -/
def cmpTotalDesc (a b : String × Int) : Bool := decide (b.2 ≤ a.2)

/-- Line 128: the per-tag download totals, sorted by total descending. -/
def tag_downloads (l : List Game) : List (String × Int) :=
  ((distinctTags l).map (fun t => (t, tagTotal l t))).mergeSort cmpTotalDesc

/-- Lines 129: `tag_downloads["primary_tag"].head(max_tags)`. -/
def top_tags (l : List Game) (maxTags : Nat) : List String :=
  ((tag_downloads l).take maxTags).map Prod.fst

/-- Line 131's sort key: `["primary_tag", "estimated_downloads"]` with
`ascending=False`, i.e. tag descending, then downloads descending. -/
def cmpTagDl (a b : Game) : Bool :=
  if primary_tag a = primary_tag b then cmpDownloads a b
  else strLe (primary_tag b) (primary_tag a)

/-- `groupby("primary_tag").head(maxGames)`: keep a row iff fewer than
`maxGames` rows of its group precede it, scanning in frame order; `cnt`
counts the rows of each group already scanned. -/
def headPerTag (maxGames : Nat) (cnt : String → Nat) : List Game → List Game
  | [] => []
  | r :: rs =>
    let t := primary_tag r
    let rest := headPerTag maxGames (fun s => if s = t then cnt s + 1 else cnt s) rs
    if cnt t < maxGames then r :: rest else rest

/-- Lines 130-131: restrict to the top tags, sort by (tag, downloads)
descending, and keep the first `maxGames` rows of each tag group. -/
def icicle_kept (l : List Game) (maxTags maxGames : Nat) : List Game :=
  headPerTag maxGames (fun _ => 0)
    ((l.filter (fun r => (top_tags l maxTags).contains (primary_tag r))).mergeSort cmpTagDl)

/-- Line 132: the frame handed to `px.icicle`, re-sorted by downloads
descending. -/
def icicle_view (l : List Game) (maxTags maxGames : Nat) : List Game :=
  (icicle_kept l maxTags maxGames).mergeSort cmpDownloads

/-- Descending-rating comparator for line 139 (`sort_values("rating",
ascending=False)`, NaN last — though line 138 has already dropped nulls). -/
def cmpRating (a b : Game) : Bool :=
  match a.rating, b.rating with
  | some u, some v => decide (v ≤ u)
  | some _, none => true
  | none, some _ => false
  | none, none => true

/-- Lines 138-139: the 3D design-profile frame.  It is computed from the
cleaned dataset `data`, not from `filtered`: drop rows with a null among
difficulty/length/rating (plus the always-non-null name and developer
strings), sort by rating descending, take the top 200. -/
def td_data (data : List Game) : List Game :=
  ((data.filter (fun r =>
      r.difficulty.isSome && r.length.isSome && r.rating.isSome)).mergeSort
    cmpRating).take 200

/-- The chart frames the script computes on one rerun, as functions of the
cleaned dataset and the sidebar parameters.  Every chart except the 3D
profile consumes `apply_filters p data`; `td_data` consumes `data` itself
(lines 138-139). -/
structure Views where
  filtered : List Game
  sunburst : List SBRow
  heatmap : List HRow
  icicle : List Game
  profile3d : List Game

/-- One full rerun of the script body for a given dataset and sidebar
state (`maxTags`, `maxGames` are the two icicle sliders). -/
def runScript (data : List Game) (p : Params) (maxTags maxGames : Nat) : Views :=
  let f := apply_filters p data
  { filtered := f
    sunburst := sbRows f
    heatmap := heatmap_data f
    icicle := icicle_view f maxTags maxGames
    profile3d := td_data data }

/-- The five filter stages of lines 41-49 as guarded per-record predicates:
stage 0 = developer, 1 = OS, 2 = min-downloads, 3 = year range, 4 = free
only.  A stage whose parameter is at its default/empty value is the
constant-true predicate, exactly as the script skips its `if`. -/
def stagePred (p : Params) : Nat → Game → Bool
  | 0, r => if p.selected_developers.isEmpty then true else devPred p.selected_developers r
  | 1, r => if p.selected_os.isEmpty then true else osPred p.selected_os r
  | 2, r => downloadsPred p.min_downloads r
  | 3, r => yearPred p.year_range.1 p.year_range.2 r
  | 4, r => if p.free_only then freePred r else true
  | _ + 5, _ => true

/-- Apply the filter stages named by `order`, left to right. -/
def applyStages (p : Params) (order : List Nat) (data : List Game) : List Game :=
  order.foldl (fun f i => f.filter (stagePred p i)) data

/-- A cleaned record with placeholder values, specialised by the concrete
instances below. -/
def baseGame : Game :=
  { game_name := "A"
    developer := "D"
    price := some 10
    reviews_like_rate := none
    rating := none
    estimated_downloads := some 100
    length := none
    difficulty := none
    age_restriction := none
    release_date := some ⟨2020⟩
    user_defined_tags := ""
    supported_os := none
    release_year := some 2020
    is_free := 0 }

/-- A raw row with placeholder values. -/
def baseRaw : RawGame :=
  { game_name := "A"
    developer := "D"
    price := some 10
    reviews_like_rate := none
    rating := none
    estimated_downloads := some 100
    length := none
    difficulty := none
    age_restriction := none
    release_date := some ⟨2020⟩
    user_defined_tags := some "RPG"
    supported_os := some "Windows" }

/-- A two-row source whose second row has an unparsable download count:
`to_numeric` turned it into NaN (`none`). -/
def dataAB : List Game :=
  load_data [baseRaw, { baseRaw with game_name := "B", estimated_downloads := none }]

/-- A game advertising two operating systems, for the OS-filter instance. -/
def osGame : Game := { baseGame with supported_os := some "Mac OS, Windows 10" }

/-- A record with the given name, tag list and download count. -/
def icGame (n : String) (tags : String) (dl : Int) : Game :=
  { baseGame with game_name := n, user_defined_tags := tags,
                  estimated_downloads := some dl }

/-- Four records over two genres (RPG: three games, Action: one). -/
def icicleData : List Game :=
  [icGame "g1" "RPG" 100, icGame "g2" "RPG" 50, icGame "g3" "RPG" 10,
   icGame "g4" "Action" 30]

/-- A single game with two tags and 1000 downloads. -/
def sbG : Game :=
  { baseGame with game_name := "G", user_defined_tags := "RPG,Action",
                  estimated_downloads := some 1000 }

/-- The one-game frame for the sunburst instance. -/
def sbData1 : List Game := [sbG]

/-- A game that shares its `game_name` with another developer's game. -/
def sbX2 : Game :=
  { baseGame with game_name := "X", developer := "B",
                  user_defined_tags := "Act, Str",
                  estimated_downloads := some 300 }

/-- Two same-named games from different developers (both survive the
(`game_name`, `developer`) deduplication), one tag vs two tags. -/
def sbData2 : List Game :=
  [{ baseGame with game_name := "X", developer := "A",
                   user_defined_tags := "RPG",
                   estimated_downloads := some 300 },
   sbX2]

/-- A record with all five heatmap columns non-null. -/
def heatGame : Game :=
  { baseGame with rating := some 4, price := some 5, length := some 2,
                  reviews_like_rate := some 90 }

/-- A second such record with a different download count. -/
def heatGame2 : Game :=
  { heatGame with game_name := "A2", estimated_downloads := some 200 }

/-! ### General lemmas -/

theorem foldl_min_le_init (as : List Int) (a : Int) : as.foldl min a ≤ a := by
  induction as generalizing a with
  | nil => exact le_refl a
  | cons b bs ih => exact le_trans (ih (min a b)) (min_le_left a b)

theorem foldl_min_le_mem (as : List Int) (a : Int) {y : Int} (h : y ∈ as) :
    as.foldl min a ≤ y := by
  induction as generalizing a with
  | nil => cases h
  | cons b bs ih =>
    rcases List.mem_cons.mp h with rfl | h'
    · exact le_trans (foldl_min_le_init bs (min a y)) (min_le_right a y)
    · exact ih (min a b) h'

theorem foldl_max_ge_init (as : List Int) (a : Int) : a ≤ as.foldl max a := by
  induction as generalizing a with
  | nil => exact le_refl a
  | cons b bs ih => exact le_trans (le_max_left a b) (ih (max a b))

theorem foldl_max_ge_mem (as : List Int) (a : Int) {y : Int} (h : y ∈ as) :
    y ≤ as.foldl max a := by
  induction as generalizing a with
  | nil => cases h
  | cons b bs ih =>
    rcases List.mem_cons.mp h with rfl | h'
    · exact le_trans (le_max_right a y) (foldl_max_ge_init bs (max a y))
    · exact ih (max a b) h'

theorem min?_getD_le {l : List Int} {y : Int} (hy : y ∈ l) : l.min?.getD 0 ≤ y := by
  cases l with
  | nil => cases hy
  | cons a as =>
    show (as.foldl min a) ≤ y
    rcases List.mem_cons.mp hy with rfl | h
    · exact foldl_min_le_init as y
    · exact foldl_min_le_mem as a h

theorem le_max?_getD {l : List Int} {y : Int} (hy : y ∈ l) : y ≤ l.max?.getD 0 := by
  cases l with
  | nil => cases hy
  | cons a as =>
    show y ≤ (as.foldl max a)
    rcases List.mem_cons.mp hy with rfl | h
    · exact foldl_max_ge_init as y
    · exact foldl_max_ge_mem as a h

/-! ### Claim theorems -/

theorem no_null_core {L : List Game} {m lo hi : Int} {r : Game}
    (h : r ∈ (L.filter (downloadsPred m)).filter (yearPred lo hi)) :
    r.estimated_downloads.isSome = true ∧ r.release_year.isSome = true := by
  obtain ⟨h3, hy⟩ := List.mem_filter.mp h
  obtain ⟨_, hd⟩ := List.mem_filter.mp h3
  constructor
  · revert hd; unfold downloadsPred; cases r.estimated_downloads <;> simp
  · revert hy; unfold yearPred; cases r.release_year <;> simp

/-- C9: every record of every FilteredView has non-null
`estimated_downloads` and non-null `release_year`: the min-downloads and
year-range comparisons of lines 46-47 run unconditionally and `none` fails
them, so records with a null in either column appear in no FilteredView,
for every parameter set including all-defaults. -/
theorem apply_filters_no_null (p : Params) (data : List Game) (r : Game)
    (hr : r ∈ apply_filters p data) :
    r.estimated_downloads.isSome = true ∧ r.release_year.isSome = true := by
  simp only [apply_filters] at hr
  by_cases hf : p.free_only
  · rw [if_pos hf] at hr
    exact no_null_core (List.mem_filter.mp hr).1
  · rw [if_neg hf] at hr
    exact no_null_core hr

/-- Witness for C9 at a concrete record and parameter set. -/
theorem apply_filters_no_null_witness :
    baseGame.estimated_downloads.isSome = true ∧
      baseGame.release_year.isSome = true :=
  apply_filters_no_null ⟨[], [], 0, (2000, 2030), false⟩ [baseGame] baseGame
    (by decide)

/-- C7: the 3D profile ChartView (lines 138-139) is computed from the full
cleaned dataset, never from the FilteredView: two reruns over the same
dataset with arbitrary different sidebar parameters (and icicle slider
positions) produce the identical 3D profile frame. -/
theorem profile3d_ignores_filters (data : List Game) (p₁ p₂ : Params)
    (t₁ g₁ t₂ g₂ : Nat) :
    (runScript data p₁ t₁ g₁).profile3d = (runScript data p₂ t₂ g₂).profile3d :=
  rfl

/-- C10: a record whose `age_restriction` is null (or failed numeric
parsing, which `errors="coerce"` makes the same `NaN`) gets age code 0 and
label "All Ages", indistinguishable from an explicit 0; any code outside
{0, 13, 17} is labelled by its decimal rendering. -/
theorem age_label_spec (r : Game) :
    (r.age_restriction = none →
      age_val r = 0 ∧ age_label r = "All Ages" ∧
      ∀ s : Game, s.age_restriction = some 0 → age_label s = age_label r) ∧
    ∀ c : Int, age_val r = c → c ≠ 0 → c ≠ 13 → c ≠ 17 →
      age_label r = toString c := by
  constructor
  · intro h
    have hv : age_val r = 0 := by simp [age_val, h, truncQ]
    refine ⟨hv, ?_, ?_⟩
    · simp [age_label, hv]
    · intro s hs
      have hvs : age_val s = 0 := by simp [age_val, hs, truncQ]
      simp [age_label, hv, hvs]
  · intro c hc h0 h13 h17
    simp [age_label, hc, h0, h13, h17]

/-- Witness for C10: age code 12 is rendered as the text "12". -/
theorem age_label_witness :
    age_label { baseGame with age_restriction := some 12 } = "12" :=
  (age_label_spec _).2 12 (by decide) (by decide) (by decide) (by decide)

/-- C3: with a non-empty OS selection (whose tokens, per line 36, are the
non-empty fragments of the dataset's OS lists), a record passes the OS
predicate iff some selected token occurs as a substring of its
space-stripped `supported_os` (an OR across tokens), and a record with null
`supported_os` never passes. -/
theorem os_filter_spec (sel : List String) (r : Game)
    (hsel : sel ≠ []) (hne : ∀ t ∈ sel, t ≠ "") :
    (osPred sel r = true ↔
      ∃ t ∈ sel, strContains (removeSpaces (r.supported_os.getD "")) t = true) ∧
    (r.supported_os = none → osPred sel r = false) := by
  constructor
  · unfold osPred
    exact List.any_eq_true
  · intro h
    unfold osPred
    rw [List.any_eq_false]
    intro t ht
    have htne : t ≠ "" := hne t ht
    rw [h]
    show strContains (removeSpaces "") t ≠ true
    cases t with
    | mk d =>
      cases d with
      | nil => exact absurd rfl htne
      | cons c cs => simp [strContains, removeSpaces, containsCh, isPrefixCh]

/-- Witness for C3 at a record listing "Mac OS, Windows 10". -/
theorem os_filter_witness :
    (osPred ["Windows"] osGame = true ↔
      ∃ t ∈ ["Windows"],
        strContains (removeSpaces (osGame.supported_os.getD "")) t = true) ∧
    (osGame.supported_os = none → osPred ["Windows"] osGame = false) :=
  os_filter_spec ["Windows"] osGame (by decide) (by decide)

theorem dropDupAux_cons_mem {seen : List (String × String)} {r : RawGame}
    {rs : List RawGame} (hm : rawKey r ∈ seen) :
    dropDupAux seen (r :: rs) = dropDupAux seen rs := by
  simp [dropDupAux, hm]

theorem dropDupAux_cons_not_mem {seen : List (String × String)} {r : RawGame}
    {rs : List RawGame} (hm : rawKey r ∉ seen) :
    dropDupAux seen (r :: rs) = r :: dropDupAux (rawKey r :: seen) rs := by
  simp [dropDupAux, hm]

theorem dropDupAux_find? (k : String × String) (l : List RawGame) :
    ∀ seen : List (String × String),
      (dropDupAux seen l).find? (fun r => rawKey r == k) =
        if k ∈ seen then none else l.find? (fun r => rawKey r == k) := by
  induction l with
  | nil => intro seen; by_cases h : k ∈ seen <;> simp [dropDupAux, h]
  | cons r rs ih =>
    intro seen
    by_cases hm : rawKey r ∈ seen
    · rw [dropDupAux_cons_mem hm, ih seen]
      by_cases hk : k ∈ seen
      · simp [hk]
      · have hne : ¬(rawKey r == k) = true := by
          simp only [beq_iff_eq]
          rintro rfl
          exact hk hm
        rw [if_neg hk, if_neg hk,
          @List.find?_cons_of_neg _ (fun s => rawKey s == k) r rs hne]
    · rw [dropDupAux_cons_not_mem hm]
      by_cases hrk : (rawKey r == k) = true
      · have hk : k ∉ seen := by
          simp only [beq_iff_eq] at hrk
          rw [← hrk]
          exact hm
        rw [@List.find?_cons_of_pos _ (fun s => rawKey s == k) r
            (dropDupAux (rawKey r :: seen) rs) hrk, if_neg hk,
          @List.find?_cons_of_pos _ (fun s => rawKey s == k) r rs hrk]
      · rw [@List.find?_cons_of_neg _ (fun s => rawKey s == k) r
            (dropDupAux (rawKey r :: seen) rs) hrk, ih (rawKey r :: seen)]
        have hkr : k ≠ rawKey r := by
          intro e
          exact hrk (by simp [e])
        by_cases hk : k ∈ seen
        · rw [if_pos (List.mem_cons_of_mem _ hk), if_pos hk]
        · have hk' : k ∉ rawKey r :: seen := by
            intro h
            rcases List.mem_cons.mp h with h | h
            · exact hkr h
            · exact hk h
          rw [if_neg hk', if_neg hk,
            @List.find?_cons_of_neg _ (fun s => rawKey s == k) r rs hrk]

theorem dropDupAux_not_seen {l : List RawGame} :
    ∀ {seen : List (String × String)}, ∀ r ∈ dropDupAux seen l, rawKey r ∉ seen := by
  induction l with
  | nil => intro seen r hr; cases hr
  | cons a as ih =>
    intro seen r hr
    by_cases hm : rawKey a ∈ seen
    · rw [dropDupAux_cons_mem hm] at hr
      exact ih r hr
    · rw [dropDupAux_cons_not_mem hm] at hr
      rcases List.mem_cons.mp hr with rfl | hr'
      · exact hm
      · intro hs
        exact ih r hr' (List.mem_cons_of_mem _ hs)

theorem dropDupAux_pairwise (l : List RawGame) :
    ∀ seen : List (String × String),
      List.Pairwise (fun a b => rawKey a ≠ rawKey b) (dropDupAux seen l) := by
  induction l with
  | nil => intro seen; exact List.Pairwise.nil
  | cons a as ih =>
    intro seen
    by_cases hm : rawKey a ∈ seen
    · rw [dropDupAux_cons_mem hm]
      exact ih seen
    · rw [dropDupAux_cons_not_mem hm]
      refine List.Pairwise.cons ?_ (ih (rawKey a :: seen))
      intro b hb heq
      exact dropDupAux_not_seen b hb (by rw [← heq]; exact List.mem_cons_self _ _)

/-- C8: the cleaned dataset has at most one record per
(`game_name`, `developer`) pair, and for each key the record kept is the
cleaning of the first source row with that key (`drop_duplicates` with the
default `keep="first"`, line 19). -/
theorem load_data_dedup_spec (rows : List RawGame) :
    List.Pairwise (fun a b : Game => gameKey a ≠ gameKey b) (load_data rows) ∧
    ∀ k : String × String,
      (load_data rows).find? (fun r => gameKey r == k) =
        Option.map (fun r => deriveCols (fillTags r))
          (rows.find? (fun r => rawKey r == k)) := by
  constructor
  · unfold load_data dropDuplicatesKey
    rw [List.pairwise_map]
    exact dropDupAux_pairwise _ []
  · intro k
    unfold load_data dropDuplicatesKey
    rw [List.find?_map]
    rw [show ((fun r : Game => gameKey r == k) ∘ deriveCols) =
        (fun r : RawGame => rawKey r == k) from rfl]
    rw [dropDupAux_find? k _ [], if_neg (List.not_mem_nil k)]
    rw [List.find?_map]
    rw [show ((fun r : RawGame => rawKey r == k) ∘ fillTags) =
        (fun r : RawGame => rawKey r == k) from rfl]
    rw [Option.map_map]
    rfl

/-- C1 fails as stated: `min_downloads = 0` is not a no-op, because the
comparison of line 46 drops NaN download counts (and likewise line 47 for
NaN years).  `dataAB` is a cleaned dataset reached from two source rows;
with every parameter at its default the FilteredView loses row "B". -/
theorem default_filters_counterexample :
    apply_filters (defaultParams dataAB) dataAB ≠ dataAB := by decide

/-- C1 (amended): with all parameters at their defaults — and the dataset's
non-null download counts nonnegative, as download counts are — the
developer, OS and free-only stages are skipped outright, and the
FilteredView equals the cleaned dataset restricted to the records with
non-null `estimated_downloads` and non-null `release_year`; it equals the
full dataset exactly when no record has a null in those two columns. -/
theorem default_filters_spec (data : List Game)
    (hdl : ∀ r ∈ data, 0 ≤ r.estimated_downloads.getD 0) :
    apply_filters (defaultParams data) data =
      data.filter (fun r =>
        r.estimated_downloads.isSome && r.release_year.isSome) := by
  unfold apply_filters defaultParams
  simp only [List.isEmpty_nil, if_true, Bool.false_eq_true, if_false]
  rw [List.filter_filter]
  refine List.filter_congr ?_
  intro r hr
  cases hd : r.estimated_downloads with
  | none => simp [downloadsPred, yearPred, hd]
  | some d =>
    cases hy : r.release_year with
    | none => simp [downloadsPred, yearPred, hd, hy]
    | some y =>
      have h0d : (0 : Int) ≤ d := by
        have := hdl r hr
        rwa [hd, Option.getD_some] at this
      have hymem : y ∈ yearValues data := List.mem_filterMap.mpr ⟨r, hr, hy⟩
      have h1 : (yearValues data).min?.getD 0 ≤ y := min?_getD_le hymem
      have h2 : y ≤ (yearValues data).max?.getD 0 := le_max?_getD hymem
      simp [downloadsPred, yearPred, hd, hy, h0d, h1, h2]

/-- Witness for the amended C1 on the concrete two-row dataset. -/
theorem default_filters_spec_witness :
    apply_filters (defaultParams dataAB) dataAB =
      dataAB.filter (fun r =>
        r.estimated_downloads.isSome && r.release_year.isSome) :=
  default_filters_spec dataAB (by decide)

theorem applyStages_eq_filter (p : Params) (order : List Nat) (data : List Game) :
    applyStages p order data =
      data.filter (fun r => order.all (fun i => stagePred p i r)) := by
  induction order generalizing data with
  | nil => simp [applyStages]
  | cons i rest ih =>
    rw [show applyStages p (i :: rest) data =
        applyStages p rest (data.filter (stagePred p i)) from rfl]
    rw [ih, List.filter_filter]
    refine List.filter_congr ?_
    intro r _
    simp [List.all_cons, Bool.and_comm]

theorem all_of_perm {α : Type} {l₁ l₂ : List α} (h : l₁.Perm l₂) (f : α → Bool) :
    l₁.all f = l₂.all f := by
  rw [Bool.eq_iff_iff, List.all_eq_true, List.all_eq_true]
  exact ⟨fun H x hx => H x (h.mem_iff.mpr hx), fun H x hx => H x (h.mem_iff.mp hx)⟩

theorem apply_filters_eq_applyStages (p : Params) (data : List Game) :
    apply_filters p data = applyStages p [0, 1, 2, 3, 4] data := by
  show apply_filters p data =
    ((((data.filter (stagePred p 0)).filter (stagePred p 1)).filter
      (stagePred p 2)).filter (stagePred p 3)).filter (stagePred p 4)
  unfold apply_filters
  by_cases h1 : p.selected_developers.isEmpty <;>
    by_cases h2 : p.selected_os.isEmpty <;>
      by_cases h3 : p.free_only <;>
        simp [stagePred, h1, h2, h3, List.filter_true]

/-- C4: the filter pipeline is a conjunction of five independent per-record
predicates; applying the stages in any order yields exactly the result of
the implemented order (lines 40-49) — even as lists, since `filter`
preserves the row order. -/
theorem filter_stage_order_invariant (p : Params) (data : List Game)
    (order : List Nat) (h : order.Perm [0, 1, 2, 3, 4]) :
    applyStages p order data = apply_filters p data := by
  rw [applyStages_eq_filter, apply_filters_eq_applyStages, applyStages_eq_filter]
  exact List.filter_congr (fun r _ => all_of_perm h _)

/-- Witness for C4: the fully reversed stage order agrees with the
implemented order on a concrete dataset with every filter active. -/
theorem filter_stage_order_witness :
    applyStages ⟨["D"], ["Windows"], 50, (2019, 2021), true⟩ [4, 3, 2, 1, 0]
        dataAB =
      apply_filters ⟨["D"], ["Windows"], 50, (2019, 2021), true⟩ dataAB :=
  filter_stage_order_invariant ⟨["D"], ["Windows"], 50, (2019, 2021), true⟩
    dataAB [4, 3, 2, 1, 0] (by decide)

theorem zip_map_mul_comm (f g : ℚ → ℚ) :
    ∀ xs ys : List ℚ,
      ((xs.zip ys).map (fun p => f p.1 * g p.2)).sum =
        ((ys.zip xs).map (fun p => g p.1 * f p.2)).sum := by
  intro xs
  induction xs with
  | nil => intro ys; cases ys <;> simp
  | cons x xs ih =>
    intro ys
    cases ys with
    | nil => simp
    | cons y ys => simp [ih, mul_comm]

theorem devProd_comm (xs ys : List ℚ) : devProd xs ys = devProd ys xs :=
  zip_map_mul_comm (fun a => a - qmean xs) (fun b => b - qmean ys) xs ys

theorem zip_self_map (xs : List ℚ) : xs.zip xs = xs.map (fun x => (x, x)) := by
  induction xs with
  | nil => rfl
  | cons x xs ih => simp [ih]

theorem devProd_self (xs : List ℚ) : devProd xs xs = devSq xs := by
  unfold devProd devSq
  rw [zip_self_map, List.map_map]
  have he : ((fun p : ℚ × ℚ => (p.1 - qmean xs) * (p.2 - qmean xs)) ∘
      fun x => (x, x)) = fun x => (x - qmean xs) ^ 2 := by
    funext x
    simp [sq]
  rw [he]

theorem devSq_nonneg (xs : List ℚ) : 0 ≤ devSq xs := by
  refine List.sum_nonneg ?_
  intro x hx
  obtain ⟨y, _, rfl⟩ := List.mem_map.mp hx
  exact sq_nonneg _

/-- C6 fails as stated: on a non-empty null-free input with a single row
(or any constant column) the pandas divisor `sqrt(ssqdmx)*sqrt(ssqdmy)` is
zero and the diagonal entry is NaN, not 1.0. -/
theorem corr_diag_counterexample :
    heatmap_data [heatGame] ≠ [] ∧
      corrMatrix (heatmap_data [heatGame]) 0 0 = none := by
  constructor
  · decide
  · have h1 : devSq (colList (heatmap_data [heatGame]) 0) = 0 := by
      show devSq [((100 : Int) : ℚ)] = 0
      simp [devSq, qmean]
    unfold corrMatrix corrVal
    rw [if_pos (Or.inl h1)]

/-- C6 (amended): the correlation matrix of the heatmap frame is always
symmetric, and a diagonal entry is exactly 1 whenever its column has
non-zero squared-deviation sum (at least two distinct values); for a
constant column — in particular for any single-row input — the diagonal
entry is NaN instead. -/
theorem corr_symm_diag (l : List HRow) (i j : Nat) :
    corrMatrix l i j = corrMatrix l j i ∧
    (devSq (colList l i) ≠ 0 → corrMatrix l i i = some 1) := by
  constructor
  · unfold corrMatrix corrVal
    by_cases hx : devSq (colList l i) = 0 <;>
      by_cases hy : devSq (colList l j) = 0 <;>
        simp [hx, hy, devProd_comm, mul_comm]
  · intro h
    unfold corrMatrix corrVal
    rw [if_neg (by simp [h])]
    rw [devProd_self]
    have h0 : (0 : ℝ) ≤ (devSq (colList l i) : ℝ) := by
      exact_mod_cast devSq_nonneg _
    rw [Real.mul_self_sqrt h0]
    have hne : ((devSq (colList l i) : ℚ) : ℝ) ≠ 0 := by
      exact_mod_cast h
    rw [div_self hne]

/-- Witness for the amended C6: two rows with distinct download counts give
diagonal entry exactly 1 in column 0. -/
theorem corr_diag_witness :
    corrMatrix (heatmap_data [heatGame, heatGame2]) 0 0 = some 1 :=
  (corr_symm_diag (heatmap_data [heatGame, heatGame2]) 0 0).2 (by
    show devSq [((100 : Int) : ℚ), ((200 : Int) : ℚ)] ≠ 0
    simp [devSq, qmean]
    norm_num)

theorem mem_sbRows_game {l : List Game} {x : SBRow} (hx : x ∈ sbRows l) :
    x.game ∈ sbTop l ∧ x.tag ∈ nonemptyTags x.game := by
  obtain ⟨s, hs, hmem⟩ := List.mem_flatMap.mp hx
  obtain ⟨t, ht, rfl⟩ := List.mem_map.mp hmem
  exact ⟨hs, ht⟩

theorem filter_rows_eq (r : Game) :
    ∀ S : List Game, S.count r = 1 →
      ((S.flatMap (fun s => (nonemptyTags s).map (fun t => SBRow.mk s t))).filter
          (fun x => x.game == r)) =
        (nonemptyTags r).map (fun t => SBRow.mk r t) := by
  intro S
  induction S with
  | nil => intro h; simp at h
  | cons s S' ih =>
    intro hc
    rw [List.flatMap_cons, List.filter_append]
    by_cases hsr : s = r
    · subst hsr
      have hc' : S'.count s = 0 := by
        rw [List.count_cons_self] at hc
        omega
      have hnot : s ∉ S' := List.count_eq_zero.mp hc'
      have h1 : ((nonemptyTags s).map (fun t => SBRow.mk s t)).filter
          (fun x => x.game == s) = (nonemptyTags s).map (fun t => SBRow.mk s t) := by
        refine List.filter_eq_self.mpr ?_
        intro x hx
        obtain ⟨t, _, rfl⟩ := List.mem_map.mp hx
        simp
      have h2 : ((S'.flatMap
          (fun s' => (nonemptyTags s').map (fun t => SBRow.mk s' t))).filter
            (fun x => x.game == s)) = [] := by
        refine List.filter_eq_nil_iff.mpr ?_
        intro x hx
        obtain ⟨u, hu, hxu⟩ := List.mem_flatMap.mp hx
        obtain ⟨t, _, rfl⟩ := List.mem_map.mp hxu
        simp only [beq_iff_eq]
        intro he
        rw [he] at hu
        exact hnot hu
      rw [h1, h2, List.append_nil]
    · have hc' : S'.count r = 1 := by
        rw [List.count_cons_of_ne (fun e => hsr e.symm)] at hc
        exact hc
      have h1 : ((nonemptyTags s).map (fun t => SBRow.mk s t)).filter
          (fun x => x.game == r) = [] := by
        refine List.filter_eq_nil_iff.mpr ?_
        intro x hx
        obtain ⟨t, _, rfl⟩ := List.mem_map.mp hx
        simpa using hsr
      rw [h1, List.nil_append, ih hc']

theorem nameCount_eq (r : Game) :
    ∀ S : List Game, (∀ s ∈ S, s.game_name = r.game_name → s = r) →
      S.count r = 1 →
      sbNameCount (S.flatMap
          (fun s => (nonemptyTags s).map (fun t => SBRow.mk s t)))
        r.game_name = (nonemptyTags r).length := by
  intro S
  induction S with
  | nil => intro _ h; simp at h
  | cons s S' ih =>
    intro hu hc
    unfold sbNameCount
    rw [List.flatMap_cons, List.countP_append]
    by_cases hsr : s = r
    · subst hsr
      have hc' : S'.count s = 0 := by
        rw [List.count_cons_self] at hc
        omega
      have hnot : s ∉ S' := List.count_eq_zero.mp hc'
      have h1 : List.countP (fun x : SBRow => x.game.game_name == s.game_name)
          ((nonemptyTags s).map (fun t => SBRow.mk s t)) =
            (nonemptyTags s).length := by
        rw [List.countP_eq_length.mpr]
        · rw [List.length_map]
        · intro x hx
          obtain ⟨t, _, rfl⟩ := List.mem_map.mp hx
          simp
      have h2 : List.countP (fun x : SBRow => x.game.game_name == s.game_name)
          (S'.flatMap (fun s' => (nonemptyTags s').map (fun t => SBRow.mk s' t))) = 0 := by
        rw [List.countP_eq_zero]
        intro x hx
        obtain ⟨u, hu', hxu⟩ := List.mem_flatMap.mp hx
        obtain ⟨t, _, rfl⟩ := List.mem_map.mp hxu
        simp only [beq_iff_eq]
        intro he
        have := hu u (List.mem_cons_of_mem _ hu') he
        rw [this] at hu'
        exact hnot hu'
      rw [h1, h2]
      omega
    · have hs_name : s.game_name ≠ r.game_name := by
        intro he
        exact hsr (hu s (List.mem_cons_self _ _) he)
      have hc' : S'.count r = 1 := by
        rw [List.count_cons_of_ne (fun e => hsr e.symm)] at hc
        exact hc
      have h1 : List.countP (fun x : SBRow => x.game.game_name == r.game_name)
          ((nonemptyTags s).map (fun t => SBRow.mk s t)) = 0 := by
        rw [List.countP_eq_zero]
        intro x hx
        obtain ⟨t, _, rfl⟩ := List.mem_map.mp hx
        simpa using hs_name
      have h2 := ih (fun u hu' => hu u (List.mem_cons_of_mem _ hu')) hc'
      unfold sbNameCount at h2
      rw [h1, h2]
      omega

theorem reduceOption_replicate_some (n : Nat) (w : ℚ) :
    (List.replicate n (some w)).reduceOption = List.replicate n w := by
  induction n with
  | zero => rfl
  | succ n ih => simp [List.replicate_succ, ih]

/-- C2 (amended): in the sunburst explode, a top-10 record with no
non-empty tag contributes no rows; and for a record `r` whose `game_name`
occurs in no other top-10 record (the groupby key of line 102 is the name
alone), each of its rows weighs `D / k` where `k` is its non-empty tag
count, so its rows sum to `D`.  When several top-10 records share a
`game_name`, the divisor is the combined row count of that name and the
per-record sums fall short — see the counterexample. -/
theorem sunburst_weight_spec (l : List Game) :
    (∀ s ∈ sbTop l, nonemptyTags s = [] → ∀ x ∈ sbRows l, x.game ≠ s) ∧
    (∀ r : Game, ∀ D : Int, r ∈ sbTop l → r.estimated_downloads = some D →
      (∀ s ∈ sbTop l, s.game_name = r.game_name → s = r) →
      (sbTop l).count r = 1 →
      rowWeights l r = List.replicate (nonemptyTags r).length
        (some ((D : ℚ) / ((nonemptyTags r).length : ℚ))) ∧
      (nonemptyTags r ≠ [] →
        ((rowWeights l r).reduceOption).sum = (D : ℚ))) := by
  constructor
  · intro s _ htags x hx he
    have h := (mem_sbRows_game hx).2
    rw [he, htags] at h
    cases h
  · intro r D _ hD huniq hcount
    have hK : sbNameCount (sbRows l) r.game_name = (nonemptyTags r).length :=
      nameCount_eq r (sbTop l) huniq hcount
    have hrows : (sbRows l).filter (fun x => x.game == r) =
        (nonemptyTags r).map (fun t => SBRow.mk r t) :=
      filter_rows_eq r (sbTop l) hcount
    have hmain : rowWeights l r = List.replicate (nonemptyTags r).length
        (some ((D : ℚ) / ((nonemptyTags r).length : ℚ))) := by
      unfold rowWeights
      rw [hrows, List.map_map]
      cases hk : (nonemptyTags r).length with
      | zero =>
        rw [List.length_eq_zero.mp hk]
        rfl
      | succ n =>
        have : ((fun x => sbWeight (sbRows l) x) ∘ fun t => SBRow.mk r t) =
            fun _ => some ((D : ℚ) / ((nonemptyTags r).length : ℚ)) := by
          funext t
          show sbWeight (sbRows l) (SBRow.mk r t) =
            some ((D : ℚ) / ((nonemptyTags r).length : ℚ))
          unfold sbWeight
          rw [show (SBRow.mk r t).game = r from rfl, hK, hk, hD]
          simp
        rw [this, List.map_const', hk]
    refine ⟨hmain, ?_⟩
    intro hne
    have hk0 : (nonemptyTags r).length ≠ 0 := by
      intro h
      exact hne (List.length_eq_zero.mp h)
    rw [hmain, reduceOption_replicate_some, List.sum_replicate, nsmul_eq_mul]
    rw [mul_div_cancel₀]
    exact Nat.cast_ne_zero.mpr hk0

unseal List.merge List.mergeSort in
/-- C2 fails as stated: two top-10 records share the name "X", so the
per-row divisor (3) counts both records' tags; the two rows of the
two-tag record "X"/"B" (downloads 300) sum to 200, not 300. -/
theorem sunburst_weight_counterexample :
    sbX2 ∈ sbTop sbData2 ∧ sbX2.estimated_downloads = some 300 ∧
    (rowWeights sbData2 sbX2).length = 2 ∧
    ((rowWeights sbData2 sbX2).reduceOption).sum ≠ ((300 : Int) : ℚ) := by
  refine ⟨by decide, rfl, by decide, ?_⟩
  have he : rowWeights sbData2 sbX2 =
      [some (((300 : Int) : ℚ) / ((3 : Nat) : ℚ)),
       some (((300 : Int) : ℚ) / ((3 : Nat) : ℚ))] := by rfl
  rw [he]
  norm_num

unseal List.merge List.mergeSort in
/-- Witness for the amended C2: a lone top-10 game with tags "RPG,Action"
and 1000 downloads gets two rows of 500 summing back to 1000. -/
theorem sunburst_weight_witness :
    rowWeights sbData1 sbG = List.replicate (nonemptyTags sbG).length
      (some (((1000 : Int) : ℚ) / ((nonemptyTags sbG).length : ℚ))) ∧
    ((rowWeights sbData1 sbG).reduceOption).sum = ((1000 : Int) : ℚ) := by
  have h := (sunburst_weight_spec sbData1).2 sbG 1000 (by decide) rfl
    (by decide) (by decide)
  exact ⟨h.1, h.2 (by decide)⟩

theorem lexLeCh_total : ∀ a b : List Char, lexLeCh a b = true ∨ lexLeCh b a = true := by
  intro a
  induction a with
  | nil => intro b; exact Or.inl rfl
  | cons x xs ih =>
    intro b
    cases b with
    | nil => exact Or.inr rfl
    | cons y ys =>
      simp only [lexLeCh]
      by_cases hxy : x = y
      · subst hxy
        rw [if_pos rfl, if_pos rfl]
        exact ih ys
      · rw [if_neg hxy, if_neg (fun e => hxy e.symm)]
        rcases lt_or_gt_of_ne hxy with h | h
        · exact Or.inl (decide_eq_true h)
        · exact Or.inr (decide_eq_true h)

theorem lexLeCh_trans : ∀ a b c : List Char,
    lexLeCh a b = true → lexLeCh b c = true → lexLeCh a c = true := by
  intro a
  induction a with
  | nil => intro b c _ _; rfl
  | cons x xs ih =>
    intro b c hab hbc
    cases b with
    | nil => exact absurd hab (by simp [lexLeCh])
    | cons y ys =>
      cases c with
      | nil => exact absurd hbc (by simp [lexLeCh])
      | cons z zs =>
        simp only [lexLeCh] at hab hbc ⊢
        by_cases hxy : x = y
        · rw [if_pos hxy] at hab
          by_cases hyz : y = z
          · rw [if_pos hyz] at hbc
            rw [if_pos (hxy.trans hyz)]
            exact ih ys zs hab hbc
          · rw [if_neg hyz] at hbc
            rw [if_neg (fun e => hyz (hxy ▸ e)), hxy]
            exact hbc
        · rw [if_neg hxy] at hab
          by_cases hyz : y = z
          · rw [if_neg (fun e => hxy (hyz ▸ e)), ← hyz]
            exact hab
          · rw [if_neg hyz] at hbc
            have hxz : x < z :=
              lt_trans (of_decide_eq_true hab) (of_decide_eq_true hbc)
            rw [if_neg (ne_of_lt hxz)]
            exact decide_eq_true hxz

theorem lexLeCh_antisymm : ∀ a b : List Char,
    lexLeCh a b = true → lexLeCh b a = true → a = b := by
  intro a
  induction a with
  | nil =>
    intro b _ hba
    cases b with
    | nil => rfl
    | cons y ys => exact absurd hba (by simp [lexLeCh])
  | cons x xs ih =>
    intro b hab hba
    cases b with
    | nil => exact absurd hab (by simp [lexLeCh])
    | cons y ys =>
      simp only [lexLeCh] at hab hba
      by_cases hxy : x = y
      · subst hxy
        rw [if_pos rfl] at hab hba
        rw [ih ys hab hba]
      · rw [if_neg hxy] at hab
        rw [if_neg (fun e => hxy e.symm)] at hba
        exact absurd (lt_trans (of_decide_eq_true hab) (of_decide_eq_true hba))
          (lt_irrefl x)

theorem strLe_total (a b : String) : strLe a b = true ∨ strLe b a = true :=
  lexLeCh_total a.data b.data

theorem strLe_trans {a b c : String} (h1 : strLe a b = true)
    (h2 : strLe b c = true) : strLe a c = true :=
  lexLeCh_trans a.data b.data c.data h1 h2

theorem strLe_antisymm {a b : String} (h1 : strLe a b = true)
    (h2 : strLe b a = true) : a = b := by
  cases a with
  | mk da =>
    cases b with
    | mk db => exact congrArg String.mk (lexLeCh_antisymm da db h1 h2)

theorem cmpDownloads_total (a b : Game) :
    (cmpDownloads a b || cmpDownloads b a) = true := by
  unfold cmpDownloads
  cases a.estimated_downloads with
  | none => cases b.estimated_downloads <;> simp
  | some u =>
    cases b.estimated_downloads with
    | none => simp
    | some v => simpa using le_total v u

theorem cmpDownloads_trans (a b c : Game) (h1 : cmpDownloads a b = true)
    (h2 : cmpDownloads b c = true) : cmpDownloads a c = true := by
  unfold cmpDownloads at h1 h2 ⊢
  cases ha : a.estimated_downloads <;> cases hb : b.estimated_downloads <;>
    cases hc : c.estimated_downloads <;> simp_all
  omega

theorem cmpTotalDesc_total (a b : String × Int) :
    (cmpTotalDesc a b || cmpTotalDesc b a) = true := by
  unfold cmpTotalDesc
  simpa using le_total b.2 a.2

theorem cmpTotalDesc_trans (a b c : String × Int) (h1 : cmpTotalDesc a b = true)
    (h2 : cmpTotalDesc b c = true) : cmpTotalDesc a c = true := by
  unfold cmpTotalDesc at h1 h2 ⊢
  exact decide_eq_true (le_trans (of_decide_eq_true h2) (of_decide_eq_true h1))

theorem cmpTagDl_total (a b : Game) :
    (cmpTagDl a b || cmpTagDl b a) = true := by
  unfold cmpTagDl
  by_cases h : primary_tag a = primary_tag b
  · rw [if_pos h, if_pos h.symm]
    exact cmpDownloads_total a b
  · rw [if_neg h, if_neg (fun e => h e.symm)]
    rcases strLe_total (primary_tag b) (primary_tag a) with hh | hh
    · simp [hh]
    · simp [hh]

theorem cmpTagDl_trans (a b c : Game) (h1 : cmpTagDl a b = true)
    (h2 : cmpTagDl b c = true) : cmpTagDl a c = true := by
  unfold cmpTagDl at h1 h2 ⊢
  by_cases hab : primary_tag a = primary_tag b
  · rw [if_pos hab] at h1
    by_cases hbc : primary_tag b = primary_tag c
    · rw [if_pos hbc] at h2
      rw [if_pos (hab.trans hbc)]
      exact cmpDownloads_trans a b c h1 h2
    · rw [if_neg hbc] at h2
      rw [if_neg (fun e => hbc (hab ▸ e)), hab]
      exact h2
  · rw [if_neg hab] at h1
    by_cases hbc : primary_tag b = primary_tag c
    · rw [if_neg (fun e => hab (e.trans hbc.symm)), ← hbc]
      exact h1
    · rw [if_neg hbc] at h2
      by_cases hac : primary_tag a = primary_tag c
      · have h2' : strLe (primary_tag a) (primary_tag b) = true := by
          rw [hac]; exact h2
        exact absurd (strLe_antisymm h1 h2').symm hab
      · rw [if_neg hac]
        exact strLe_trans h2 h1

theorem headPerTag_sublist (M : Nat) :
    ∀ (cnt : String → Nat) (l : List Game), (headPerTag M cnt l).Sublist l := by
  intro cnt l
  induction l generalizing cnt with
  | nil => exact List.Sublist.refl []
  | cons r rs ih =>
    simp only [headPerTag]
    by_cases h : cnt (primary_tag r) < M
    · rw [if_pos h]
      exact (ih _).cons₂ r
    · rw [if_neg h]
      exact (ih _).cons r

theorem headPerTag_quota (M : Nat) (t : String) :
    ∀ (cnt : String → Nat) (l : List Game), M ≤ cnt t →
      ∀ r ∈ headPerTag M cnt l, primary_tag r ≠ t := by
  intro cnt l
  induction l generalizing cnt with
  | nil => intro _ r hr; cases hr
  | cons a rs ih =>
    intro h r hr
    simp only [headPerTag] at hr
    have hbump : M ≤ (if t = primary_tag a then cnt t + 1 else cnt t) := by
      by_cases ht : t = primary_tag a
      · rw [if_pos ht]; omega
      · rw [if_neg ht]; exact h
    by_cases hk : cnt (primary_tag a) < M
    · rw [if_pos hk] at hr
      rcases List.mem_cons.mp hr with rfl | hr'
      · intro he
        rw [he] at hk
        omega
      · exact ih _ hbump r hr'
    · rw [if_neg hk] at hr
      exact ih _ hbump r hr

theorem headPerTag_countP (M : Nat) (t : String) :
    ∀ (cnt : String → Nat) (l : List Game),
      (headPerTag M cnt l).countP (fun r => primary_tag r == t) =
        min (M - cnt t) (l.countP (fun r => primary_tag r == t)) := by
  intro cnt l
  induction l generalizing cnt with
  | nil => simp [headPerTag]
  | cons a rs ih =>
    simp only [headPerTag]
    by_cases ht : primary_tag a = t
    · have htt : t = primary_tag a := ht.symm
      by_cases hk : cnt (primary_tag a) < M
      · rw [if_pos hk, List.countP_cons, List.countP_cons, ih]
        rw [if_pos htt]
        rw [show (if (primary_tag a == t) = true then (1 : Nat) else 0) = 1
          from by simp [ht]]
        rw [← htt] at hk
        rw [Nat.min_def, Nat.min_def]
        split_ifs <;> omega
      · rw [if_neg hk, List.countP_cons, ih]
        rw [if_pos htt]
        rw [show (if (primary_tag a == t) = true then (1 : Nat) else 0) = 1
          from by simp [ht]]
        rw [← htt] at hk
        rw [Nat.min_def, Nat.min_def]
        split_ifs <;> omega
    · have htt : ¬ t = primary_tag a := fun e => ht e.symm
      have hpa : (primary_tag a == t) = false := beq_eq_false_iff_ne.mpr ht
      by_cases hk : cnt (primary_tag a) < M
      · rw [if_pos hk, List.countP_cons, List.countP_cons, ih]
        rw [if_neg htt, hpa]
        simp
      · rw [if_neg hk, List.countP_cons, ih]
        rw [if_neg htt, hpa]
        simp

theorem headPerTag_dominant (M : Nat) :
    ∀ (cnt : String → Nat) (l : List Game),
      List.Pairwise (fun a b => cmpTagDl a b = true) l →
      ∀ s ∈ l, s ∉ headPerTag M cnt l →
      ∀ r ∈ headPerTag M cnt l, primary_tag r = primary_tag s →
      cmpDownloads r s = true := by
  intro cnt l
  induction l generalizing cnt with
  | nil => intro _ s hs; cases hs
  | cons a rs ih =>
    intro hpw s hs hsn r hr htag
    obtain ⟨ha, hrest⟩ := List.pairwise_cons.mp hpw
    simp only [headPerTag] at hsn hr
    by_cases hk : cnt (primary_tag a) < M
    · rw [if_pos hk] at hsn hr
      rcases List.mem_cons.mp hs with rfl | hs'
      · exact absurd (List.mem_cons_self _ _) hsn
      · rcases List.mem_cons.mp hr with rfl | hr'
        · have hc := ha s hs'
          unfold cmpTagDl at hc
          rw [if_pos htag] at hc
          exact hc
        · have hsn' : s ∉ headPerTag M _ rs :=
            fun h => hsn (List.mem_cons_of_mem _ h)
          exact ih _ hrest s hs' hsn' r hr' htag
    · rw [if_neg hk] at hsn hr
      rcases List.mem_cons.mp hs with rfl | hs'
      · have hq : M ≤ (fun s' => if s' = primary_tag s then cnt s' + 1
            else cnt s') (primary_tag s) := by
          show M ≤ if primary_tag s = primary_tag s then
            cnt (primary_tag s) + 1 else cnt (primary_tag s)
          rw [if_pos rfl]
          omega
        exact absurd htag (headPerTag_quota M (primary_tag s) _ rs hq r hr)
      · exact ih _ hrest s hs' hsn r hr htag

theorem dedupStr_mem : ∀ (l : List String) (b : String), b ∈ dedupStr l ↔ b ∈ l := by
  intro l
  induction l using dedupStr.induct with
  | case1 => intro b; simp [dedupStr]
  | case2 a as ih =>
    intro b
    rw [dedupStr]
    by_cases hba : b = a
    · subst hba
      simp
    · simp only [List.mem_cons]
      rw [ih]
      simp [List.mem_filter, hba]

theorem dedupStr_nodup : ∀ l : List String, (dedupStr l).Nodup := by
  intro l
  induction l using dedupStr.induct with
  | case1 => simp [dedupStr]
  | case2 a as ih =>
    rw [dedupStr]
    refine List.Nodup.cons ?_ ih
    intro hmem
    have h1 := (dedupStr_mem _ a).mp hmem
    have h2 := (List.mem_filter.mp h1).2
    simp at h2

theorem tag_downloads_pairs (l : List Game) :
    ∀ p ∈ tag_downloads l, p.2 = tagTotal l p.1 ∧ p.1 ∈ distinctTags l := by
  intro p hp
  have hp' : p ∈ (distinctTags l).map (fun t => (t, tagTotal l t)) :=
    (List.mergeSort_perm _ _).mem_iff.mp hp
  obtain ⟨t, ht, rfl⟩ := List.mem_map.mp hp'
  exact ⟨rfl, ht⟩

theorem tag_downloads_sorted (l : List Game) :
    List.Pairwise (fun a b => cmpTotalDesc a b = true) (tag_downloads l) :=
  List.sorted_mergeSort cmpTotalDesc_trans cmpTotalDesc_total _

theorem top_tags_length (l : List Game) (N : Nat) :
    (top_tags l N).length = min N (distinctTags l).length := by
  unfold top_tags
  rw [List.length_map, List.length_take]
  congr 1
  unfold tag_downloads
  rw [(List.mergeSort_perm _ _).length_eq, List.length_map]

theorem top_tags_total_ge (l : List Game) (N : Nat) :
    ∀ t ∈ top_tags l N, ∀ u ∈ distinctTags l, u ∉ top_tags l N →
      tagTotal l u ≤ tagTotal l t := by
  intro t ht u hu hun
  obtain ⟨pt, hpt, hpt1⟩ := List.mem_map.mp ht
  have hpair := tag_downloads_pairs l pt (List.mem_of_mem_take hpt)
  have hu' : (u, tagTotal l u) ∈ tag_downloads l :=
    (List.mergeSort_perm _ _).mem_iff.mpr (List.mem_map.mpr ⟨u, hu, rfl⟩)
  have hsplit := List.take_append_drop N (tag_downloads l)
  have hud : (u, tagTotal l u) ∈ (tag_downloads l).drop N := by
    rcases List.mem_append.mp (show (u, tagTotal l u) ∈
        (tag_downloads l).take N ++ (tag_downloads l).drop N by
          rw [hsplit]; exact hu') with h | h
    · exact absurd (List.mem_map.mpr ⟨(u, tagTotal l u), h, rfl⟩) hun
    · exact h
  have hpw : List.Pairwise (fun a b => cmpTotalDesc a b = true)
      ((tag_downloads l).take N ++ (tag_downloads l).drop N) := by
    rw [hsplit]
    exact tag_downloads_sorted l
  have hcross := (List.pairwise_append.mp hpw).2.2 pt hpt _ hud
  have hle := of_decide_eq_true hcross
  rw [hpair.1, hpt1] at hle
  exact hle

theorem mem_icicle_view_top (l : List Game) (N M : Nat) :
    ∀ r ∈ icicle_view l N M, primary_tag r ∈ top_tags l N := by
  intro r hr
  have hr1 : r ∈ icicle_kept l N M := (List.mergeSort_perm _ _).mem_iff.mp hr
  unfold icicle_kept at hr1
  have hr2 := (headPerTag_sublist M _ _).subset hr1
  have hr3 := (List.mergeSort_perm _ _).mem_iff.mp hr2
  have hc := (List.mem_filter.mp hr3).2
  simpa using hc

/-- C5: the icicle transform (lines 128-131) keeps a set of
`min N (number of tags)` primary tags each of whose download totals is at
least every excluded tag's total; a record of an unkept tag never reaches
the icicle ChartView; and within each kept tag exactly
`min M (tag's record count)` records survive, every survivor having at
least the downloads of every dropped same-tag record.  (pandas'
quicksort breaks ties among equal totals/downloads arbitrarily; these
statements are exactly the tie-independent content of "top-N/top-M".) -/
theorem icicle_spec (l : List Game) (N M : Nat) :
    ((top_tags l N).length = min N (distinctTags l).length) ∧
    (∀ t ∈ top_tags l N, ∀ u ∈ distinctTags l, u ∉ top_tags l N →
      tagTotal l u ≤ tagTotal l t) ∧
    (∀ r ∈ icicle_view l N M, primary_tag r ∈ top_tags l N) ∧
    (∀ t ∈ top_tags l N,
      (icicle_view l N M).countP (fun r => primary_tag r == t) =
        min M (l.countP (fun r => primary_tag r == t))) ∧
    (∀ r ∈ icicle_view l N M, ∀ s ∈ l, primary_tag s = primary_tag r →
      s ∉ icicle_view l N M → cmpDownloads r s = true) := by
  refine ⟨top_tags_length l N, top_tags_total_ge l N,
    mem_icicle_view_top l N M, ?_, ?_⟩
  · intro t ht
    have h1 : (icicle_view l N M).countP (fun r => primary_tag r == t) =
        (icicle_kept l N M).countP (fun r => primary_tag r == t) :=
      (List.mergeSort_perm _ _).countP_eq _
    rw [h1]
    unfold icicle_kept
    rw [headPerTag_countP]
    have h2 : ((l.filter (fun r =>
        (top_tags l N).contains (primary_tag r))).mergeSort
          cmpTagDl).countP (fun r => primary_tag r == t) =
        (l.filter (fun r =>
          (top_tags l N).contains (primary_tag r))).countP
            (fun r => primary_tag r == t) :=
      (List.mergeSort_perm _ _).countP_eq _
    rw [h2, List.countP_filter]
    have h3 : (l.countP fun a => (primary_tag a == t) &&
        (top_tags l N).contains (primary_tag a)) =
        l.countP fun r => primary_tag r == t := by
      refine List.countP_congr ?_
      intro x _
      by_cases hx : primary_tag x = t
      · rw [hx]
        simp only [beq_self_eq_true, Bool.true_and, iff_true]
        simpa using ht
      · simp [beq_eq_false_iff_ne.mpr hx]
    rw [h3, Nat.sub_zero]
  · intro r hr s hs htag hsn
    have hrk : r ∈ icicle_kept l N M := (List.mergeSort_perm _ _).mem_iff.mp hr
    have hsk : s ∉ icicle_kept l N M :=
      fun h => hsn ((List.mergeSort_perm _ _).mem_iff.mpr h)
    have htags : primary_tag s ∈ top_tags l N := by
      rw [htag]
      exact mem_icicle_view_top l N M r hr
    have hsb : s ∈ (l.filter (fun r' =>
        (top_tags l N).contains (primary_tag r'))).mergeSort cmpTagDl := by
      refine (List.mergeSort_perm _ _).mem_iff.mpr ?_
      exact List.mem_filter.mpr ⟨hs, by simpa using htags⟩
    have hpw : List.Pairwise (fun a b => cmpTagDl a b = true)
        ((l.filter (fun r' =>
          (top_tags l N).contains (primary_tag r'))).mergeSort cmpTagDl) :=
      List.sorted_mergeSort cmpTagDl_trans cmpTagDl_total _
    unfold icicle_kept at hrk hsk
    exact headPerTag_dominant M _ _ hpw s hsb hsk r hrk htag.symm

unseal List.merge List.mergeSort dedupStr in
/-- Witness for C5: with genres {RPG: 3 games, Action: 1 game}, N = 1 and
M = 2, the icicle keeps exactly min 2 3 = 2 of the RPG games. -/
theorem icicle_spec_witness :
    (icicle_view icicleData 1 2).countP (fun r => primary_tag r == "RPG") =
      min 2 (icicleData.countP (fun r => primary_tag r == "RPG")) :=
  ((icicle_spec icicleData 1 2).2.2.2.1) "RPG" (by decide)

end SteamApp
